import Mathlib

/-!
Verification development for the ragaz compiler core.

Each area of this file is a shallow embedding of one part of the source:
types and compatibility checking from ragaz/types_.py, the uses/moves
checker from ragaz/cfg_passes/uses.py, constant folding from
ragaz/ast_passes/expressions.py, numeric specialization from
ragaz/cfg_passes/specialization.py, destructor insertion from
ragaz/cfg_passes/destructions.py, the pass re-entrance guard shared by all
visit_function implementations, and the per-function name-suffix generator
from ragaz/ast_.py.

Python types in the source form cyclic object graphs whose equality is
string-based: ReprId defines both __eq__ and __hash__ over repr(self).
The embedding models a type as a finite tree and keeps the repr-string
semantics of equality.  Recursive procedures over types take an explicit
fuel argument as a termination device; the source relies on the repr-based
equality short cut to terminate on its cyclic graphs, and every claim below
is settled at fuel values far above the depth of the types involved.
-/

namespace Ragaz

/-- Platform word size used for the int and uint basic types
(types_.py WORD_SIZE); modelled for a 64-bit target. -/
def WORD_SIZE : Nat := 64

/-- Compiler directive util.AUTOMATIC_CASTING, default True. -/
def AUTOMATIC_CASTING : Bool := true

/-- Canonical type objects of types_.py.  basic covers the builtin numeric
and void classes of the BASIC table; base covers classes built by
create_type_or_trait, with their method table (name to ordered overload
function types) and optional elements; wrapper, data, func, variadic and
typevar mirror the classes Wrapper, Data, Function, VariadicArgs and
ast.TypeVar.  The name stored is the structural class name used by repr. -/
inductive Ty where
  | basic (name : String)
  | base (name : String) (methods : List (String × List Ty)) (elements : Option (List Ty))
  | trait (name : String) (methods : List (String × List Ty))
  | wrapper (over : Ty) (is_mutable : Bool) (is_heap_owner : Bool) (is_reference : Bool)
  | data (over : Ty)
  | func (ret : Ty) (args : List Ty) (is_extern_c : Bool)
  | typevar (name : String)
  | variadic

mutual

/-- The name property of a type (types_.py: Base.name, Wrapper.name,
Data.name, Function.name). -/
def tyName : Ty → String
  | .basic n => n
  | .base n _ _ => n
  | .trait n _ => n
  | .wrapper over m _ r =>
      (if m then "~" else "") ++ (if r then "&" else "") ++ tyName over
  | .data over => "data<" ++ tyName over ++ ">"
  | .func ret args _ =>
      "function(" ++ tyNameList args ++ ") -> " ++ tyName ret
  | .typevar n => n
  | .variadic => "VariadicArgs"

/-- Comma-joined names of a list of types. -/
def tyNameList : List Ty → String
  | [] => ""
  | [t] => tyName t
  | t :: ts => tyName t ++ ", " ++ tyNameList ts

end

mutual

/-- The repr string of a type.  ReprId bases both __eq__ and __hash__ on
this string, so it is the identity of a type object (types_.py: Base,
Trait, Wrapper, Data, Function __repr__). -/
def reprStr : Ty → String
  | .basic n => "<type: " ++ n ++ ">"
  | .base n _ _ => "<type: " ++ n ++ ">"
  | .trait n _ => "<trait: " ++ n ++ ">"
  | .wrapper over _ h r =>
      "<type: " ++ (if r then "ref_ptr" else if h then "owner_ptr" else "ptr")
        ++ "<" ++ tyName over ++ ">>"
  | .data over => "<type: data<" ++ tyName over ++ ">>"
  | .func ret args _ =>
      "<fn " ++ reprStr ret ++ " <- [" ++ reprStrList args ++ "]>"
  | .typevar n => "<typevar: " ++ n ++ ">"
  | .variadic => "<type: VariadicArgs>"

/-- Comma-joined repr strings of a list of types. -/
def reprStrList : List Ty → String
  | [] => ""
  | [t] => reprStr t
  | t :: ts => reprStr t ++ ", " ++ reprStrList ts

end

/-- Python equality between type objects: repr(self) == repr(other)
(types_.py ReprId.__eq__). -/
def pyEq (a b : Ty) : Bool :=
  reprStr a == reprStr b

/-- Python equality between tuples or lists of type objects: elementwise
equality at equal lengths. -/
def pyEqList (xs ys : List Ty) : Bool :=
  xs.length == ys.length && (xs.zip ys).all fun p => pyEq p.1 p.2

/-- Python set equality between sets of tuples of type objects, as used by
the trait branch of is_compatible: mutual inclusion under tuple equality. -/
def pySetEq (xs ys : List (List Ty)) : Bool :=
  (xs.all fun x => ys.any fun y => pyEqList x y) &&
  (ys.all fun y => xs.any fun x => pyEqList x y)

/-- Names of the registered integer basic types (types_.py BASIC, group
integer; populated into INTEGERS by check_basic_type). -/
def integerNames : List String :=
  ["anyint", "byte", "i8", "u8", "i16", "u16", "i32", "u32",
   "i64", "u64", "i128", "u128", "int", "uint"]

/-- Names of the registered floating basic types (group floating). -/
def floatNames : List String :=
  ["anyfloat", "f32", "f64", "float"]

/-- Membership of a type in the INTEGERS set.  The set holds the canonical
basic type objects and membership compares by repr, so any type whose repr
equals the repr of a registered integer type is a member. -/
def inIntegers (t : Ty) : Bool :=
  integerNames.any fun n => reprStr t == "<type: " ++ n ++ ">"

/-- Membership of a type in the FLOATS set. -/
def inFloats (t : Ty) : Bool :=
  floatNames.any fun n => reprStr t == "<type: " ++ n ++ ">"

/-- Membership in INTEGERS union FLOATS (the numeric_types set of
is_compatible). -/
def inNumeric (t : Ty) : Bool :=
  inIntegers t || inFloats t

/-- The num_bits entry of the BASIC table; check_basic_type stores it in
the bits attribute of each basic type.  anyint and anyfloat carry None in
the source and are guarded away before bits is read; they map to 0 here. -/
def basicBits : String → Nat
  | "bool" => 1
  | "byte" => 8
  | "i8" => 8
  | "u8" => 8
  | "i16" => 16
  | "u16" => 16
  | "i32" => 32
  | "u32" => 32
  | "i64" => 64
  | "u64" => 64
  | "i128" => 128
  | "u128" => 128
  | "int" => WORD_SIZE
  | "uint" => WORD_SIZE
  | "f32" => 32
  | "f64" => 64
  | "float" => 64
  | _ => 0

/-- The bits attribute of a type; present on the registered basic types. -/
def bitsOf : Ty → Nat
  | .basic n => basicBits n
  | .base n _ _ => basicBits n
  | _ => 0

/-- Check whether a type is wrapped (types_.py is_wrapped: isinstance of
Wrapper; Data is not a Wrapper). -/
def is_wrapped : Ty → Bool
  | .wrapper _ _ _ _ => true
  | _ => false

/-- Check whether a type owns heap data (types_.py is_heap_owner: an
is_heap_owner attribute that is true; Wrapper instances carry the flag and
class Data sets it to True at class level). -/
def is_heap_owner : Ty → Bool
  | .wrapper _ _ h _ => h
  | .data _ => true
  | _ => false

/-- Check whether a type is a reference (types_.py is_reference). -/
def is_reference : Ty → Bool
  | .wrapper _ _ _ r => r
  | _ => false

/-- Strip all Wrapper layers (types_.py unwrap). -/
def unwrap : Ty → Ty
  | .wrapper over _ _ _ => unwrap over
  | t => t

/-- The elements attribute when present: create_type_or_trait stores an
elements list on a created class exactly when it has type variables, and
the container types carry their element types there. -/
def tyElements : Ty → Option (List Ty)
  | .base _ _ es => es
  | _ => none

/-- The methods table of a type.  Base and Trait both default the methods
attribute to an empty mapping at class level, so every type answers. -/
def tyMethods : Ty → List (String × List Ty)
  | .base _ ms _ => ms
  | .trait _ ms => ms
  | _ => []

/-- Dictionary lookup by key in insertion-ordered association list form. -/
def lookupD (ms : List (String × List Ty)) (key : String) : Option (List Ty) :=
  (ms.find? fun p => p.1 == key).map (·.2)

/-- Default function type used where the source indexes a method overload
group that is never empty by construction. -/
def defaultFnTy : Ty := Ty.func (Ty.basic "void") [] false

/-- The ret entry of a method entry type (Function.over of the type of the method); method tables always hold function types. -/
def overRet : Ty → Ty
  | .func ret _ _ => ret
  | t => t

/-- The args entry of a method entry type. -/
def overArgs : Ty → List Ty
  | .func _ args _ => args
  | _ => []

mutual

/-- Structural compatibility between an actual and a formal type
(types_.py is_compatible).  The branches appear in source order; the
branch for Python lists of types lives in is_compatible_args.  Note that
the trait branch of the source returns True from inside its loop over the
trait methods, so only the first trait method is ever examined, and a
trait with no methods falls through to the final return False. -/
def is_compatible (fuel : Nat) (actual formal : Ty) (mode : String)
    (accept_bigger_type : Bool) : Bool :=
  match fuel with
  | 0 => false
  | fuel + 1 =>
    -- both concrete types with elements: all elements pairwise compatible
    match tyElements actual, tyElements formal with
    | some ae, some fe =>
        (ae.zip fe).all fun p => is_compatible fuel p.1 p.2 mode true
    | _, _ =>
    if pyEq actual formal then true
    else if (match actual, formal with
             | .typevar a, .typevar b => a == b
             | _, _ => false) then true
    else if (match actual with | .typevar _ => true | _ => false
             || match formal with | .typevar _ => true | _ => false)
            && mode == "args" then true
    else if is_reference actual && !is_reference formal then false
    else match actual, formal with
    | .func ra aa _, .func rf fa _ =>
        is_compatible fuel ra rf mode true &&
        is_compatible_args fuel aa fa mode
    | _, _ =>
    if tyName actual == "anytype" then true
    else if inNumeric actual && inNumeric formal then
      if AUTOMATIC_CASTING then
        if (tyName actual == "anyint" || tyName actual == "anyfloat")
           || (tyName formal == "anyint" || tyName formal == "anyfloat") then true
        else if !accept_bigger_type then bitsOf actual ≤ bitsOf formal
        else true
      else if !pyEq actual formal then
        (tyName actual == "anyint" && inIntegers formal)
        || (tyName formal == "anyint" && inIntegers actual)
        || (tyName actual == "anyfloat" && inFloats formal)
        || (tyName formal == "anyfloat" && inFloats actual)
      else false
    else if is_wrapped actual && is_wrapped formal then
      is_compatible fuel (unwrap actual) (unwrap formal) mode true
    else if (is_wrapped actual || is_wrapped formal) && mode == "args" then
      is_compatible fuel (unwrap actual) (unwrap formal) mode true
    else match formal with
    | .trait _ fms =>
        -- loop over formal.methods: the body either returns False on a
        -- failed check or returns True at the end of its first iteration
        match fms with
        | [] => false
        | (name, formal_methods) :: _ =>
          match lookupD (tyMethods actual) name with
          | none => false
          | some actual_methods =>
            let actual_ret := overRet (actual_methods.headD defaultFnTy)
            let formal_ret := overRet (formal_methods.headD defaultFnTy)
            if !is_compatible fuel actual_ret formal_ret mode true then false
            else
              let formal_args_types := formal_methods.map fun f => (overArgs f).drop 1
              let actual_args_types := actual_methods.map fun f => (overArgs f).drop 1
              if !pySetEq formal_args_types actual_args_types then false
              else true
    | _ => false

/-- The branch of is_compatible taken when both sides are Python lists of
types (formal argument lists): equal length, a trailing VariadicArgs on
the formal side matches by dropping it, otherwise pairwise. -/
def is_compatible_args (fuel : Nat) (actual formal : List Ty) (mode : String) : Bool :=
  match fuel with
  | 0 => false
  | fuel + 1 =>
    if actual.length != formal.length then false
    else if (match formal.getLast? with
             | some last => pyEq last Ty.variadic
             | none => false) then
      (actual.zip (formal.dropLast)).all fun p => is_compatible fuel p.1 p.2 mode true
    else
      (actual.zip formal).all fun p => is_compatible fuel p.1 p.2 mode true

end

/-- A method option as seen by select_method: its declared name and the
formal argument types produced by get_formal_types.  The source resolves
template type variables inside get_formal_types; the methods modelled here
are concrete, for which get_formal_types returns arg.type of each formal
argument unchanged. -/
structure SMethod where
  name : String
  formals : List Ty

/-- Failure modes of select_method: the named method does not exist on the
type, no candidate matched the arguments, or the assertion on named
arguments fired. -/
inductive SelectErr where
  | noSuchMethod
  | noMatch
  | namedArgsAssert

/-- The scoring loop of select_method over one candidate: each
incompatible parameter adds -1000 and stops the scan, an exact type match
adds 10 and a compatible but different match adds 1. -/
def scoreArgs (fuel : Nat) : List Ty → List Ty → Int
  | a :: as_, f :: fs =>
      if !is_compatible fuel a f "args" true then -1000
      else (if pyEq a f then 10 else 1) + scoreArgs fuel as_ fs
  | _, _ => 0

/-- Stable ascending sort by score, as Python list.sort with the score
key: a later entry is inserted after every earlier entry whose score is
less than or equal to its own. -/
def insertByScore (x : SMethod × Int) : List (SMethod × Int) → List (SMethod × Int)
  | [] => [x]
  | y :: ys => if y.2 ≤ x.2 then y :: insertByScore x ys else x :: y :: ys

/-- Python stable sort of the scored list, ascending by score. -/
def pySortScored (l : List (SMethod × Int)) : List (SMethod × Int) :=
  l.foldl (fun acc x => insertByScore x acc) []

/-- The candidate-scoring traversal of select_method.  Returns the chosen
method directly when a candidate with an empty formal list matches (the
source returns it immediately), otherwise the scored list in declaration
order, keeping only candidates with positive score. -/
def gatherScored (fuel : Nat) (actual_types : List Ty) :
    List SMethod → SMethod ⊕ List (SMethod × Int)
  | [] => .inr []
  | m :: rest =>
      let formal_types := if m.name != "__new__" then m.formals.drop 1 else m.formals
      if formal_types.length == actual_types.length then
        if formal_types.length == 0 then .inl m
        else
          let score := scoreArgs fuel actual_types formal_types
          match gatherScored fuel actual_types rest with
          | .inl m2 => .inl m2
          | .inr scored =>
              .inr (if score > 0 then (m, score) :: scored else scored)
      else gatherScored fuel actual_types rest

/-- Overload selection (types_.py select_method).  methods is the
ungrouped method list of the class, positional the actual argument slots
with the leading self placeholder None; named arguments trigger the
assertion of the source.  After scoring, the source sorts the scored list
ascending by score and returns scored[0][0]. -/
def select_method (fuel : Nat) (method_name : String) (methods : List SMethod)
    (positional : List (Option Ty)) (named : List (String × Ty))
    (error_if_not_found : Bool) : Except SelectErr (Option SMethod) :=
  let options := methods.filter fun m =>
    m.name == method_name || (method_name == "__init__" && m.name == "__new__")
  let method_found := methods.any fun m => m.name == method_name
  if !method_found then
    if error_if_not_found then .error .noSuchMethod else .ok none
  else if named.length > 0 then .error .namedArgsAssert
  else
    -- actual_types = positional[1:]; the tail slots always carry a type
    let actual_types := (positional.drop 1).filterMap id
    match gatherScored fuel actual_types options with
    | .inl m => .ok (some m)
    | .inr scored =>
      match pySortScored scored with
      | chosen :: _ => .ok (some chosen.1)
      | [] => if error_if_not_found then .error .noMatch else .ok none

/-- The canonical i32 type. -/
def tyI32 : Ty := Ty.basic "i32"

/-- The canonical i64 type. -/
def tyI64 : Ty := Ty.basic "i64"

/-- Example receiver class for overload selection. -/
def exSelfTy : Ty := Ty.base "C" [] none

/-- First-declared overload foo(self, x: i32): an exact match for an i32
actual, scoring 10. -/
def fooI32 : SMethod := { name := "foo", formals := [exSelfTy, tyI32] }

/-- Second-declared overload foo(self, x: i64): a compatible but different
match for an i32 actual, scoring 1. -/
def fooI64 : SMethod := { name := "foo", formals := [exSelfTy, tyI64] }

/-- Trait with two declared methods m1 and m2, both of type
function(self) -> i32. -/
def exTrait : Ty :=
  Ty.trait "Show2"
    [("m1", [Ty.func tyI32 [Ty.typevar "Self"] false]),
     ("m2", [Ty.func tyI32 [Ty.typevar "Self"] false])]

/-- Concrete class implementing only m1 of the trait above. -/
def exActual : Ty :=
  Ty.base "A" [("m1", [Ty.func tyI32 [Ty.typevar "Self"] false])] none

/-- A source position, abstracted to an identifier. -/
abbrev Pos := Nat

/-- The result of get_name on an object checked by the uses pass: a plain
string for a Symbol, a pair of owner name and attribute name for an
Attribute (ast_.py Attribute.get_name returns a tuple). -/
inductive MKey where
  | sym (name : String)
  | attrK (obj : String) (field : String)
deriving DecidableEq

/-- A node as stored in the moves dictionary: its key and its position. -/
structure MNode where
  key : MKey
  pos : Pos
deriving DecidableEq

/-- The moves dictionary of the uses pass, insertion-ordered. -/
abbrev Moves := List (MKey × MNode)

/-- Dictionary lookup in the moves map (dict.get). -/
def movesGet (m : Moves) (k : MKey) : Option MNode :=
  (m.find? fun p => p.1 == k).map (·.2)

/-- Dictionary store in the moves map: replace the binding of an existing
key in place, else append. -/
def movesSet (m : Moves) (k : MKey) (v : MNode) : Moves :=
  if (m.find? fun p => p.1 == k).isSome then
    m.map fun p => if p.1 == k then (k, v) else p
  else m ++ [(k, v)]

/-- A diagnostic of util.Error: (position, message) pairs plus hints. -/
structure PyError where
  messages : List (Pos × String)
  hints : List String
deriving DecidableEq

/-- A raised failure inside the uses pass: a util.Error diagnostic or a
Python-level assertion or attribute failure. -/
inductive CheckFailure where
  | err (e : PyError)
  | pyFault
deriving DecidableEq

/-- One entry of the references map of the uses pass. -/
structure RefEntry where
  obj : MNode
  reference_assign_right_pos : Pos
  blocking_assign_left_pos : Option Pos
deriving DecidableEq

/-- The references map: referenced name to its list of reference entries. -/
abbrev References := List (String × List RefEntry)

/-- Check of an object use (uses.py UsesChecker.check_object): raise a
use-after-move error with the move origin and the current use when the
name is in moves; otherwise scan the references map for an entry of this
object that was blocked by a later assignment and raise a three-position
error. -/
def check_object (moves : Moves) (references : References) (node : MNode) :
    Except CheckFailure Unit :=
  match movesGet moves node.key with
  | some var =>
      let msgs := [(var.pos, "value moved here"), (node.pos, "but used here after move")]
      .error (.err { messages := msgs, hints := ["consider passing a reference to the value using the & operator"] })
  | none =>
    match (references.map fun p => p.2).flatten.find? fun r =>
        r.obj.key == node.key && r.blocking_assign_left_pos.isSome with
    | some r =>
        let msgs := [(r.reference_assign_right_pos, "when an object is referenced"),
                     (r.blocking_assign_left_pos.getD 0, "but new assignment to it happens"),
                     (node.pos, "the reference cannot be used later")]
        .error (.err { messages := msgs, hints := [] })
    | none => .ok ()

/-- A right-hand-side expression as tagged by the CFG builder and checked
by check_move_or_copy: symbols, attributes and tuples carry check_move,
elements carry check_copy; copy_or_move_call records whether the value
flows into an extern C call. -/
inductive SrcExpr where
  | symbol (name : String) (pos : Pos) (ty : Ty) (check_move : Bool) (externCall : Option Bool)
  | attribute (obj : String) (field : String) (pos : Pos) (ty : Ty) (check_move : Bool) (externCall : Option Bool)
  | tupleE (elements : List SrcExpr) (pos : Pos) (ty : Ty) (check_move : Bool) (externCall : Option Bool)
  | element (name : String) (pos : Pos) (ty : Ty) (check_copy : Bool) (externCall : Option Bool)
  | other (pos : Pos) (ty : Ty)

/-- get_name of a checked expression, when the node class defines it. -/
def srcKey : SrcExpr → Option MKey
  | .symbol n _ _ _ _ => some (.sym n)
  | .attribute o f _ _ _ _ => some (.attrK o f)
  | .element n _ _ _ _ => some (.sym n)
  | _ => none

/-- Position of a checked expression. -/
def srcPos : SrcExpr → Pos
  | .symbol _ p _ _ _ => p
  | .attribute _ _ p _ _ _ => p
  | .tupleE _ p _ _ _ => p
  | .element _ p _ _ _ => p
  | .other p _ => p

/-- Type of a checked expression. -/
def srcTy : SrcExpr → Ty
  | .symbol _ _ t _ _ => t
  | .attribute _ _ _ t _ _ => t
  | .tupleE _ _ t _ _ => t
  | .element _ _ t _ _ => t
  | .other _ t => t

/-- The copy_or_move_call attribute, when the node class carries it. -/
def srcExternCall : SrcExpr → Option Bool
  | .symbol _ _ _ _ e => e
  | .attribute _ _ _ _ _ e => e
  | .tupleE _ _ _ _ e => e
  | .element _ _ _ _ e => e
  | .other _ _ => none

/-- The check_move flag, for node classes that define it. -/
def srcCheckMove : SrcExpr → Option Bool
  | .symbol _ _ _ m _ => some m
  | .attribute _ _ _ _ m _ => some m
  | .tupleE _ _ _ m _ => some m
  | _ => none

/-- The check_copy flag, for node classes that define it. -/
def srcCheckCopy : SrcExpr → Option Bool
  | .element _ _ _ c _ => some c
  | _ => none

/-- Inner helper of check_move_or_copy (uses.py check_partial_move): when
the node is not itself recorded as moved, scan moves for a tuple key whose
owner matches the node and raise a partial-move error with both
positions. -/
def check_partial_move (moves : Moves) (node : SrcExpr) :
    Except CheckFailure Unit :=
  match srcKey node with
  | none => .error .pyFault
  | some k =>
    match movesGet moves k with
    | some _ => .ok ()
    | none =>
      match moves.find? fun p =>
          match p.1 with
          | .attrK o _ => (match k with | .sym n => o == n | _ => false)
          | _ => false with
      | some p =>
          let msgs := [(p.2.pos, "value partially moved here"), (srcPos node, "but passed again here after move")]
          .error (.err { messages := msgs, hints := ["consider passing a reference to the value using the & operator"] })
      | none => .ok ()

/-- Record moves of the tuple elements that own heap data; the loop body
of the tuple case of check_move_or_copy. -/
def moveTupleElements (moves : Moves) : List SrcExpr → Except CheckFailure Moves
  | [] => .ok moves
  | e :: rest =>
      if is_heap_owner (srcTy e) then
        match check_partial_move moves e with
        | .error f => .error f
        | .ok _ =>
          match srcKey e with
          | none => .error .pyFault
          | some k => moveTupleElements (movesSet moves k { key := k, pos := srcPos e }) rest
      else moveTupleElements moves rest

/-- Move or shallow-copy decision (uses.py UsesChecker.check_move_or_copy).
Returns the updated moves map together with the node with its flags
updated.  Moves are recorded only when the destination type owns heap
data; an extern C destination clears the tags instead. -/
def check_move_or_copy (moves : Moves) (src : SrcExpr) (dst_type : Ty) :
    Except CheckFailure (Moves × SrcExpr) :=
  let is_extern_c := (srcExternCall src).getD false
  if !is_extern_c then
    match srcCheckMove src with
    | some true =>
        if is_heap_owner dst_type then
          match src with
          | .tupleE elements _ _ _ _ =>
              (moveTupleElements moves elements).map fun m => (m, src)
          | .symbol n p _ _ _ =>
              (check_partial_move moves src).map fun _ =>
                (movesSet moves (.sym n) { key := .sym n, pos := p }, src)
          | .attribute o f p _ _ _ =>
              (check_partial_move moves src).map fun _ =>
                (movesSet moves (.attrK o f) { key := .attrK o f, pos := p }, src)
          | _ => .ok (moves, src)
        else .ok (moves, src)
    | _ =>
      match srcCheckCopy src with
      | some true =>
          if !is_heap_owner (srcTy src) then
            .ok (moves, match src with
                        | .element n p t _ e => .element n p t false e
                        | s => s)
          else .ok (moves, src)
      | _ => .ok (moves, src)
  else
    match srcCheckMove src with
    | some _ =>
        .ok (moves, match src with
                    | .symbol n p t _ e => .symbol n p t false e
                    | .attribute o f p t _ e => .attribute o f p t false e
                    | .tupleE es p t _ e => .tupleE es p t false e
                    | s => s)
    | none =>
      match srcCheckCopy src with
      | some _ =>
          .ok (moves, match src with
                      | .element n p t _ e => .element n p t false e
                      | s => s)
      | none => .ok (moves, src)

/-- One entry of the uses map of the uses pass: the variable node and the
set of its recorded use sites. -/
structure UseEntry where
  var : MNode
  uses : List Pos
deriving DecidableEq

/-- The unused-variable scan at the end of UsesChecker.visit_function:
warn on a variable with no recorded uses and break out of the loop. -/
def unusedWarnings : List UseEntry → List (Pos × String)
  | [] => []
  | e :: rest =>
      if e.uses.length == 0 then [(e.var.pos, "this variable is unused")]
      else unusedWarnings rest

/-- A host (Python) value produced by folding a literal expression.  The
integer operations modelled cover the cases the folding pass evaluates in
host arithmetic; a missing case of host evaluation raises. -/
inductive PyVal where
  | int (n : Int)
  | bool (b : Bool)
deriving DecidableEq

/-- Host evaluation of a binary operator on two folded literal values, as
performed by eval on the formatted source string: division and modulo by
zero raise, modelled by none.  Python floor division and modulo follow
Int.fdiv and Int.fmod. -/
def pyEvalOp : PyVal → String → PyVal → Option PyVal
  | .int a, "+", .int b => some (.int (a + b))
  | .int a, "-", .int b => some (.int (a - b))
  | .int a, "*", .int b => some (.int (a * b))
  | .int a, "//", .int b => if b == 0 then none else some (.int (Int.fdiv a b))
  | .int a, "%", .int b => if b == 0 then none else some (.int (Int.fmod a b))
  | .int a, "==", .int b => some (.bool (a == b))
  | .int a, "<", .int b => some (.bool (a < b))
  | _, _, _ => none

/-- Host evaluation through the literal attributes: an operand whose
literal attribute was never assigned raises when formatted. -/
def pyEvalBin : Option PyVal → String → Option PyVal → Option PyVal
  | some a, op, some b => pyEvalOp a op b
  | _, _, _ => none

/-- An operand of a folded operation: its is_literal flag and literal
attribute (absent when never assigned). -/
structure LitOperand where
  is_literal : Bool
  literal : Option PyVal
deriving DecidableEq

/-- A binary operation node as the folding pass sees it after visiting
both children. -/
structure BinNode where
  left : LitOperand
  right : LitOperand
  op : String
  is_literal : Bool
  literal : Option PyVal
deriving DecidableEq

/-- Constant folding of a binary operation (expressions.py
ExpressionsEvaluator.binary_op).  When both operands are literal the node
literal is computed inside a try whose except handler sets is_literal to
False on failure, but the finally clause then sets is_literal to True
unconditionally, on the success and on the failure path alike. -/
def binary_op (node : BinNode) : BinNode :=
  if node.left.is_literal && node.right.is_literal then
    match pyEvalBin node.left.literal node.op node.right.literal with
    | some v =>
        -- try succeeded; finally sets is_literal = True
        { node with literal := some v, is_literal := true }
    | none =>
        -- except sets is_literal = False, then finally overrides it to True
        let node1 := { node with is_literal := false }
        { node1 with is_literal := true }
  else node

/-- A unary operation node as the folding pass sees it after visiting its
operand. -/
structure UnNode where
  value : LitOperand
  op : String
  is_literal : Bool
  literal : Option PyVal
deriving DecidableEq

/-- Host evaluation of a unary operator on a folded literal value. -/
def pyEvalUn : Option PyVal → String → Option PyVal
  | some (.int a), "-" => some (.int (-a))
  | some (.bool b), "not" => some (.bool (!b))
  | _, _ => none

/-- Constant folding of a unary operation (expressions.py
ExpressionsEvaluator.unary_op), with the same try, except, finally layout
as binary_op. -/
def unary_op (node : UnNode) : UnNode :=
  if node.value.is_literal then
    match pyEvalUn node.value.literal node.op with
    | some v => { node with literal := some v, is_literal := true }
    | none =>
        let node1 := { node with is_literal := false }
        { node1 with is_literal := true }
  else node

/-- The failing input for constant folding: 1 % 0 with both operands
literal; host evaluation raises ZeroDivisionError. -/
def failBinNode : BinNode :=
  { left := { is_literal := true, literal := some (.int 1) },
    right := { is_literal := true, literal := some (.int 0) },
    op := "%", is_literal := false, literal := none }

/-- Errors raised by the specializer. -/
inductive SpecErr where
  | noTypeSpecified
  | cannotSpecialize
  | fuelOut
deriving DecidableEq

/-- Check for a non-specialized type (specialization.py
Specializer.is_generic with the default generic_types; the source also
stamps an is_non_specialized flag on the type, a side effect with no
bearing on the result). -/
def is_generic (fuel : Nat) (typ : Ty) : Bool :=
  match fuel with
  | 0 => false
  | fuel + 1 =>
    let typ := unwrap typ
    match tyElements typ with
    | some es => es.any fun tp => is_generic fuel tp
    | none =>
      match typ with
      | .data over => is_generic fuel over
      | _ => tyName typ == "anyint" || tyName typ == "anyfloat" || tyName typ == "anytype"

/-- The canonical instantiation of a derived type name over element types
(module.instance_type on an ast.DerivedType), modelled structurally as the
canonical class of that structural name. -/
def mkDerived (base : String) (elements : List Ty) : Ty :=
  Ty.base (base ++ "<" ++ tyNameList elements ++ ">") [] (some elements)

/-- Copy the ownership flags of the source wrapper onto the result
(the trailing flag assignments of specialize). -/
def setWrapperFlags (t : Ty) (m h r : Bool) : Ty :=
  match t with
  | .wrapper over _ _ _ => .wrapper over m h r
  | t => t

mutual

/-- Numeric placeholder resolution (specialization.py
Specializer.specialize).  src_type is specialized against the unwrapped
destination; a generic or trait destination counts as absent; an absent
destination resolves anyint to int and anyfloat to float; element-carrying
types recurse elementwise and are re-instantiated; otherwise the source
type must already equal the destination.  The returned type receives a
Wrapper layer and the ownership flags of the source when the source was
wrapped. -/
def specialize (fuel : Nat) (src_type : Ty) (dst_type : Option Ty) :
    Except SpecErr Ty :=
  match fuel with
  | 0 => .error .fuelOut
  | fuel + 1 =>
    let wrapperFlags : Option (Bool × Bool × Bool) :=
      match src_type with
      | .wrapper _ m h r => some (m, h, r)
      | _ => none
    let unwrapped_src_type := unwrap src_type
    let dst0 := dst_type.map unwrap
    let dst1 : Option Ty :=
      match dst0 with
      | some d =>
          if is_generic fuel d || (match d with | .trait _ _ => true | _ => false)
          then none else some d
      | none => none
    let finish : Ty → Except SpecErr Ty := fun t =>
      match wrapperFlags with
      | some (m, h, r) => .ok (setWrapperFlags t m h r)
      | none => .ok t
    if tyName unwrapped_src_type == "anytype"
       || tyName unwrapped_src_type == "anyint"
       || tyName unwrapped_src_type == "anyfloat" then
      match dst1 with
      | none =>
          if pyEq unwrapped_src_type (Ty.basic "anyint") then
            finish (match wrapperFlags with
                    | some _ => Ty.wrapper (Ty.basic "int") false false false
                    | none => Ty.basic "int")
          else if pyEq unwrapped_src_type (Ty.basic "anyfloat") then
            finish (match wrapperFlags with
                    | some _ => Ty.wrapper (Ty.basic "float") false false false
                    | none => Ty.basic "float")
          else .error .noTypeSpecified
      | some d =>
          finish (match wrapperFlags with
                  | some _ => Ty.wrapper d false false false
                  | none => d)
    else
      match tyElements unwrapped_src_type with
      | some elements =>
          let typ_name := (tyName unwrapped_src_type).takeWhile fun c => c != '<'
          let dst_elements : List (Option Ty) :=
            match dst1 with
            | some d =>
                match tyElements d with
                | some des => des.map some
                | none => []
            | none => elements.map fun _ => none
          match specializeElements fuel (elements.zip dst_elements) with
          | .error f => .error f
          | .ok element_types =>
              finish (match wrapperFlags with
                      | some _ => Ty.wrapper (mkDerived typ_name element_types) false false false
                      | none => mkDerived typ_name element_types)
      | none =>
          match dst1 with
          | none => finish src_type
          | some d =>
              if pyEq unwrapped_src_type d then finish src_type
              else .error .cannotSpecialize
termination_by (fuel, 0)

/-- The loop of the elements branch of specialize: specialize each element
against its destination element, collecting the results. -/
def specializeElements (fuel : Nat) :
    List (Ty × Option Ty) → Except SpecErr (List Ty)
  | [] => .ok []
  | (e, de) :: rest =>
      match specialize fuel e de with
      | .error f => .error f
      | .ok t =>
          match specializeElements fuel rest with
          | .error f => .error f
          | .ok ts => .ok (t :: ts)
termination_by l => (fuel, l.length + 1)

end

/-- A scoped dictionary (util.py ScopesDict): a current mapping plus an
optional parent scope. -/
inductive ScopesDict (α : Type) where
  | mk (parent : Option (ScopesDict α)) (current : List (MKey × α))

/-- The parent scope. -/
def sdParent : ScopesDict α → Option (ScopesDict α)
  | .mk p _ => p

/-- The current mapping. -/
def sdCurrent : ScopesDict α → List (MKey × α)
  | .mk _ c => c

/-- Membership across the whole scope chain (ScopesDict.__contains__,
which recurses through every parent). -/
def sdContains : ScopesDict α → MKey → Bool
  | .mk parent current, k =>
      (current.any fun p => p.1 == k)
      || (match parent with
          | some p => sdContains p k
          | none => false)

/-- The values method of ScopesDict: the current values followed by the
values of the current mapping of the parent only — the parent chain is not
followed further (util.py ScopesDict.values). -/
def sdValues : ScopesDict α → List α
  | .mk parent current =>
      (current.map fun p => p.2)
      ++ (match parent with
          | some (.mk _ pcurrent) => pcurrent.map fun p => p.2
          | none => [])

/-- Store into the current mapping (ScopesDict.__setitem__ writes the
current dictionary only). -/
def sdSet (d : ScopesDict α) (k : MKey) (v : α) : ScopesDict α :=
  match d with
  | .mk parent current =>
      if current.any fun p => p.1 == k then
        .mk parent (current.map fun p => if p.1 == k then (k, v) else p)
      else .mk parent (current ++ [(k, v)])

/-- Update the entry returned by ScopesDict.__getitem__ in place: the
current mapping is searched first, then the parent chain. -/
def sdModify : ScopesDict α → MKey → (α → α) → ScopesDict α
  | .mk parent current, k, f =>
      if current.any fun p => p.1 == k then
        .mk parent (current.map fun p => if p.1 == k then (p.1, f p.2) else p)
      else
        match parent with
        | some p => .mk (some (sdModify p k f)) current
        | none => .mk none current

/-- A variable node as tracked by the destructor pass: its get_name key,
its type, its must_escape mark and its position. -/
structure DVar where
  key : MKey
  ty : Ty
  must_escape : Bool
  pos : Pos

/-- A definition-table entry of the destructor pass (destructions.py
class Definition). -/
structure Definition where
  var : DVar
  initialized : Bool

/-- Destructor insertion test (destructions.py
Destructor.check_delete_variable): a Del node is created for a wrapped,
non-reference binding that does not escape to the heap, or on an explicit
reassignment release. -/
def check_delete_variable (var : DVar) (reassign : Bool) : Option DVar :=
  if is_wrapped var.ty && !is_reference var.ty && (!var.must_escape || reassign)
  then some var else none

/-- The destructors emitted in front of a Return step (destructions.py
Destructor.visit_return): one Del per surviving definition produced by
ScopesDict.values, in that order. -/
def visit_return_dels (definitions : ScopesDict Definition) : List DVar :=
  (sdValues definitions).filterMap fun d => check_delete_variable d.var false

/-- Register a definition (destructions.py Destructor.define_variable):
only when the name is not yet present anywhere in the scope chain. -/
def dest_define_variable (defs : ScopesDict Definition) (var : DVar)
    (initialized : Bool) : ScopesDict Definition :=
  if !sdContains defs var.key then
    sdSet defs var.key { var := var, initialized := initialized }
  else defs

/-- A left-hand side handled by the destructor pass: a Symbol, a
SetAttribute or a SetElement store. -/
inductive LValue where
  | symbolL (v : DVar)
  | setAttributeL (obj : String) (field : String) (pos : Pos)
  | setElementL (obj : String) (pos : Pos)

/-- get_name of a left-hand side. -/
def lvKey : LValue → MKey
  | .symbolL v => v.key
  | .setAttributeL o f _ => .attrK o f
  | .setElementL o _ => .sym o

/-- The left side of an Assign step: a tuple of targets or a single
target. -/
inductive AssignLeft where
  | tup (elements : List LValue)
  | one (l : LValue)

/-- State of the destructor pass while visiting a block: the definitions
in scope and the steps of the current block. -/
structure DestructorState where
  definitions : ScopesDict Definition
  blockSteps : List MKey

/-- The assign_variable helper of Destructor.visit_assign: a Symbol target
is registered as a definition, and an already-known target is marked
initialized.  The release of the previously owned content is absent from
the source (the check_delete_variable call is commented out). -/
def assign_variable (defs : ScopesDict Definition) (left : LValue) :
    ScopesDict Definition :=
  let defs :=
    match left with
    | .symbolL v => dest_define_variable defs v false
    | _ => defs
  if sdContains defs (lvKey left) then
    sdModify defs (lvKey left) fun d => { d with initialized := true }
  else defs

/-- Reassignment handling of the destructor pass (destructions.py
Destructor.visit_assign): visits the right side, then runs assign_variable
on each target.  No step is inserted into the current block. -/
def visit_assign (st : DestructorState) (left : AssignLeft) : DestructorState :=
  match left with
  | .tup elements =>
      { st with definitions := elements.foldl assign_variable st.definitions }
  | .one l =>
      { st with definitions := assign_variable st.definitions l }

/-- A wrapped, non-reference, non-escaping string-typed binding for the
destructor examples. -/
def mkOwnedVar (n : String) (p : Pos) : DVar :=
  { key := .sym n, ty := Ty.wrapper (Ty.base "str" [] none) false true false,
    must_escape := false, pos := p }

/-- Function-level scope holding binding a (the arguments scope). -/
def exScope0 : ScopesDict Definition :=
  .mk none [(.sym "a", { var := mkOwnedVar "a" 1, initialized := true })]

/-- Body scope holding binding b. -/
def exScope1 : ScopesDict Definition :=
  .mk (some exScope0) [(.sym "b", { var := mkOwnedVar "b" 2, initialized := true })]

/-- Innermost scope holding binding c, as entered by a nested suite. -/
def exScope2 : ScopesDict Definition :=
  .mk (some exScope1) [(.sym "c", { var := mkOwnedVar "c" 3, initialized := true })]

/-- A function as the pass dispatcher sees it: its content (AST suite, CFG
blocks and node annotations) and the list of applied pass names
(ast_.py Function.passes). -/
structure FnP (α : Type) where
  content : α
  passes : List String

/-- A compiler pass: its name, its transformation of the function content
and its applicability condition (such as types.is_concrete).  The
PASSES_PRECEDENCE linked list of predecessors is represented as the chain
of a pass: the pass itself followed by its predecessors in order. -/
structure PassStep (α : Type) where
  name : String
  transform : α → α
  applicable : α → Bool

/-- The visit_function entry of a pass, shared by every pass of the
pipeline: run check_previous_pass, which runs the predecessor pass when
its name is not yet recorded; transform the content only when the pass
name is not yet in the passes list and the function is applicable; and
append the pass name unconditionally (expressions.py and uses.py
visit_function; util.py check_previous_pass). -/
def pass_visit_function {α : Type} : List (PassStep α) → FnP α → FnP α
  | [], fn => fn
  | step :: prevChain, fn =>
    let fn1 : FnP α :=
      match prevChain with
      | [] => fn
      | p :: _ =>
          if !(fn.passes.contains p.name) then pass_visit_function prevChain fn
          else fn
    let fn2 : FnP α :=
      if !(fn1.passes.contains step.name) && step.applicable fn1.content then
        { fn1 with content := step.transform fn1.content }
      else fn1
    { fn2 with passes := fn2.passes ++ [step.name] }

/-- The check_previous_pass stage of pass_visit_function, named for the
proofs below; definitionally the first stage of the body above. -/
def passFn1 {α : Type} (prevChain : List (PassStep α)) (fn : FnP α) : FnP α :=
  match prevChain with
  | [] => fn
  | p :: _ =>
      if !(fn.passes.contains p.name) then pass_visit_function prevChain fn
      else fn

/-- Decimal digit character of a value below ten. -/
def digitChar : Nat → Char
  | 0 => '0'
  | 1 => '1'
  | 2 => '2'
  | 3 => '3'
  | 4 => '4'
  | 5 => '5'
  | 6 => '6'
  | 7 => '7'
  | 8 => '8'
  | _ => '9'

/-- Inverse of digitChar on decimal digit characters. -/
def charToDigit : Char → Nat
  | '0' => 0
  | '1' => 1
  | '2' => 2
  | '3' => 3
  | '4' => 4
  | '5' => 5
  | '6' => 6
  | '7' => 7
  | '8' => 8
  | _ => 9

/-- Decimal digit characters of a natural number, most significant
first, as Python str formatting renders the counter value. -/
def natDigits (n : Nat) : List Char :=
  if _h : n < 10 then [digitChar n]
  else natDigits (n / 10) ++ [digitChar (n % 10)]
decreasing_by exact Nat.div_lt_self (by omega) (by omega)

/-- Value of a decimal digit string. -/
def digitsVal (cs : List Char) : Nat :=
  cs.foldl (fun acc c => acc * 10 + charToDigit c) 0

/-- The per-function suffix counter (ast_.py Function.suffix_count). -/
structure FnCounter where
  suffix_count : Nat

/-- Fresh suffix generation (ast_.py Function.generate_suffix): increment
the per-function counter and render the previous value after a dollar
sign. -/
def generate_suffix (fn : FnCounter) : List Char × FnCounter :=
  ('$' :: natDigits fn.suffix_count, { suffix_count := fn.suffix_count + 1 })

/-- A run of internal-name generation requests inside one function: each
request appends a fresh suffix to its base name (implicits.py
define_variable with base name, flow.py deconstruct with base hidden, and
the landing-pad variable with the empty base). -/
def runGenerate : List (List Char) → FnCounter → List (List Char) × FnCounter
  | [], st => ([], st)
  | b :: bs, st =>
      let gen := generate_suffix st
      let rest := runGenerate bs gen.2
      ((b ++ gen.1) :: rest.1, rest.2)

/-- Example bases of one function: an alpha-renamed user variable, a CFG
temporary and a landing-pad variable. -/
def exBases : List (List Char) :=
  [['a'], ['h', 'i', 'd', 'd', 'e', 'n'], []]

/-- A moves map holding variable a, moved at position 5. -/
def exMoves : Moves := [(.sym "a", { key := .sym "a", pos := 5 })]

/-- A later use of variable a, at position 9. -/
def exUseNode : MNode := { key := .sym "a", pos := 9 }

/-- A right-hand-side symbol a tagged check_move by the CFG builder. -/
def exMoveSrc : SrcExpr :=
  .symbol "a" 4 (Ty.wrapper (Ty.base "str" [] none) false true false) true none

/-- A heap-owning destination formal type. -/
def exHeapDst : Ty := Ty.wrapper (Ty.base "str" [] none) false true false

/-- Claim C1, evaluated at the failing input.  The claim states that among
the arity-matching, fully compatible overloads the one with the highest
positive score is returned.  The source instead sorts the scored list
ascending and returns its first entry: with overload foo taking i32
declared first and scoring 10 on an i32 actual, and overload foo taking
i64 declared second and scoring only 1, select_method returns the
lowest-scoring i64 overload. -/
theorem C1_select_method_returns_lowest_scored :
    select_method 50 "foo" [fooI32, fooI64] [none, some tyI32] [] true
      = .ok (some fooI64)
    ∧ scoreArgs 50 [tyI32] (fooI32.formals.drop 1) = 10
    ∧ scoreArgs 50 [tyI32] (fooI64.formals.drop 1) = 1 := by
  exact ⟨rfl, rfl, rfl⟩

/-- Claim C3, evaluated at the failing input 1 % 0 with both operands
literal.  The claim states that a failed host evaluation leaves the node
non-literal, but the finally clause of the source sets is_literal back to
True after the except handler: the folded node carries is_literal = true
even though host evaluation of the operation raised. -/
theorem C3_failed_fold_still_flags_literal :
    (binary_op failBinNode).is_literal = true
    ∧ pyEvalBin failBinNode.left.literal failBinNode.op failBinNode.right.literal
        = none := by
  exact ⟨rfl, rfl⟩

/-- Claim C4, evaluated at the failing input.  The claim states that a
concrete type is compatible with a trait formal only when it implements
every trait method, but the source returns True from inside the loop over
the trait methods: class A implements only m1 of the two-method trait, m2
is absent from its method table, and is_compatible still answers true. -/
theorem C4_trait_compat_examines_only_first_method :
    is_compatible 50 exActual exTrait "default" true = true
    ∧ lookupD (tyMethods exActual) "m2" = none := by
  exact ⟨rfl, rfl⟩

/-- Claim C5, evaluated at the failing input of three nested scopes.  The
claim states that at a Return every wrapped, non-reference, non-escaping
binding of every scope up to the function receives a Del, but
ScopesDict.values only collects the current scope and the current mapping
of its immediate parent: at a return in the innermost of three scopes the
emitted destructors cover c and b while the function-level binding a,
still in scope and itself deletable, receives none. -/
theorem C5_return_dels_miss_outer_scopes :
    (visit_return_dels exScope2).map (fun v => v.key)
      = [MKey.sym "c", MKey.sym "b"]
    ∧ sdContains exScope2 (MKey.sym "a") = true
    ∧ check_delete_variable (mkOwnedVar "a" 1) false = some (mkOwnedVar "a" 1) := by
  exact ⟨rfl, rfl, rfl⟩

/-- Claim C6.  The claim states that reassigning a binding that owns heap
content inserts a releasing Del before the store, but the release logic of
Destructor.visit_assign is commented out in the source: visiting an
assignment never changes the steps of the current block, whatever the
state of the definitions table and whatever the target. -/
theorem C6_reassignment_inserts_no_del :
    ∀ (st : DestructorState) (left : AssignLeft),
      (visit_assign st left).blockSteps = st.blockSteps := by
  intro st left
  cases left <;> rfl

/-- Claim C10.  The unused-variable scan of UsesChecker.visit_function
warns about the first entry of the uses map with no recorded use and then
breaks out of the loop: at most one warning is emitted per function, and
it is exactly the first unused entry in iteration order. -/
theorem C10_at_most_one_unused_warning :
    ∀ (uses : List UseEntry),
      (unusedWarnings uses).length ≤ 1
      ∧ unusedWarnings uses =
          (match uses.find? fun e => e.uses.length == 0 with
           | some e => [(e.var.pos, "this variable is unused")]
           | none => []) := by
  intro uses
  induction uses with
  | nil => exact ⟨by simp [unusedWarnings], by simp [unusedWarnings]⟩
  | cons e rest ih =>
      by_cases h : e.uses.length == 0
      · constructor
        · simp [unusedWarnings, h]
        · simp [unusedWarnings, h, List.find?]
      · constructor
        · simpa [unusedWarnings, h] using ih.1
        · simpa [unusedWarnings, h, List.find?] using ih.2

/-- Claim C2.  Using a name recorded in the moves map raises a
use-after-move diagnostic carrying exactly the move origin position and
the offending use position; and check_move_or_copy extends the moves map
only when the destination formal type owns heap data — with any other
destination the map is left untouched and the name stays usable. -/
theorem C2_use_after_move_and_heap_gate :
    (∀ (moves : Moves) (references : References) (node var : MNode),
        movesGet moves node.key = some var →
        check_object moves references node =
          .error (.err { messages := [(var.pos, "value moved here"),
                                      (node.pos, "but used here after move")],
                         hints := ["consider passing a reference to the value using the & operator"] }))
    ∧ (∀ (moves : Moves) (src : SrcExpr) (dst : Ty) (moves2 : Moves) (src2 : SrcExpr),
        check_move_or_copy moves src dst = .ok (moves2, src2) →
        ∀ k, movesGet moves k = none → (movesGet moves2 k).isSome = true →
        is_heap_owner dst = true) := by
  constructor
  · intro moves references node var h
    simp [check_object, h]
  · intro moves src dst moves2 src2 hok k hnone hsome
    by_contra hnot
    have hd : is_heap_owner dst = false := by
      cases hheap : is_heap_owner dst
      · rfl
      · exact absurd hheap hnot
    have hmoves : moves2 = moves := by
      unfold check_move_or_copy at hok
      simp only [hd, Bool.false_eq_true, if_false] at hok
      split at hok <;> (try split at hok) <;> (try split at hok) <;> (try split at hok)
      all_goals exact (Prod.mk.inj (Except.ok.inj hok)).1.symm
    rw [hmoves, hnone] at hsome
    simp at hsome

/-- Witness for claim C2: the theorem applied at a concrete moved name and
at a concrete heap-owning destination. -/
theorem C2_witness :
    (check_object exMoves [] exUseNode =
      .error (.err { messages := [(5, "value moved here"), (9, "but used here after move")],
                     hints := ["consider passing a reference to the value using the & operator"] }))
    ∧ is_heap_owner exHeapDst = true := by
  constructor
  · exact C2_use_after_move_and_heap_gate.1 exMoves [] exUseNode
      { key := .sym "a", pos := 5 } rfl
  · exact C2_use_after_move_and_heap_gate.2 [] exMoveSrc exHeapDst
      [(.sym "a", { key := .sym "a", pos := 4 })] exMoveSrc rfl (.sym "a") rfl rfl

/-- Claim C7.  When the type of an expression is still the anyint or
anyfloat placeholder and no destination type exists to propagate from,
specialize resolves it to int respectively float, preserving any Wrapper
layer and its ownership flags. -/
theorem C7_specialize_defaults_without_destination :
    ∀ (fuel : Nat) (src : Ty),
      (unwrap src = Ty.basic "anyint" →
        ∃ r, specialize (fuel + 1) src none = .ok r ∧ unwrap r = Ty.basic "int")
      ∧ (unwrap src = Ty.basic "anyfloat" →
        ∃ r, specialize (fuel + 1) src none = .ok r ∧ unwrap r = Ty.basic "float") := by
  intro fuel src
  constructor
  · intro h
    cases src with
    | basic n =>
        cases h
        exact ⟨Ty.basic "int", by simp [specialize, unwrap, tyName, pyEq, reprStr], rfl⟩
    | wrapper over m hw r =>
        simp only [unwrap] at h
        refine ⟨Ty.wrapper (Ty.basic "int") m hw r, ?_, rfl⟩
        simp [specialize, unwrap, h, setWrapperFlags, tyName, pyEq, reprStr]
    | base n ms es => exact absurd h (by simp [unwrap])
    | trait n ms => exact absurd h (by simp [unwrap])
    | data t => exact absurd h (by simp [unwrap])
    | func a b c => exact absurd h (by simp [unwrap])
    | typevar n => exact absurd h (by simp [unwrap])
    | variadic => exact absurd h (by simp [unwrap])
  · intro h
    cases src with
    | basic n =>
        cases h
        exact ⟨Ty.basic "float", by simp [specialize, unwrap, tyName, pyEq, reprStr], rfl⟩
    | wrapper over m hw r =>
        simp only [unwrap] at h
        refine ⟨Ty.wrapper (Ty.basic "float") m hw r, ?_, rfl⟩
        simp [specialize, unwrap, h, setWrapperFlags, tyName, pyEq, reprStr]
    | base n ms es => exact absurd h (by simp [unwrap])
    | trait n ms => exact absurd h (by simp [unwrap])
    | data t => exact absurd h (by simp [unwrap])
    | func a b c => exact absurd h (by simp [unwrap])
    | typevar n => exact absurd h (by simp [unwrap])
    | variadic => exact absurd h (by simp [unwrap])

/-- Witness for claim C7: the theorem applied at the bare anyint and
anyfloat placeholder types. -/
theorem C7_witness :
    (∃ r, specialize 1 (Ty.basic "anyint") none = .ok r ∧ unwrap r = Ty.basic "int")
    ∧ (∃ r, specialize 1 (Ty.basic "anyfloat") none = .ok r ∧ unwrap r = Ty.basic "float") :=
  ⟨(C7_specialize_defaults_without_destination 0 (Ty.basic "anyint")).1 rfl,
   (C7_specialize_defaults_without_destination 0 (Ty.basic "anyfloat")).2 rfl⟩

/-- Unfolding of pass_visit_function on a nonempty chain in terms of the
named check_previous_pass stage. -/
theorem visit_cons_eq {α : Type} (step : PassStep α)
    (prev : List (PassStep α)) (fn : FnP α) :
    pass_visit_function (step :: prev) fn =
      (let fn1 := passFn1 prev fn
       let fn2 :=
         if !(fn1.passes.contains step.name) && step.applicable fn1.content then
           { fn1 with content := step.transform fn1.content }
         else fn1
       { fn2 with passes := fn2.passes ++ [step.name] }) := rfl

/-- Reduction of the check_previous_pass stage when the predecessor name
is already recorded. -/
theorem passFn1_hit {α : Type} (p : PassStep α) (rest : List (PassStep α))
    (fn : FnP α) (hm : p.name ∈ fn.passes) : passFn1 (p :: rest) fn = fn := by
  simp [passFn1, hm]

/-- Reduction of the check_previous_pass stage when the predecessor name
is missing: the predecessor pass is run. -/
theorem passFn1_miss {α : Type} (p : PassStep α) (rest : List (PassStep α))
    (fn : FnP α) (hm : p.name ∉ fn.passes) :
    passFn1 (p :: rest) fn = pass_visit_function (p :: rest) fn := by
  simp [passFn1, hm]

/-- Unfolding of pass_visit_function on a nonempty chain: the passes of
the result are those of the check_previous_pass stage plus the pass
name. -/
theorem visit_cons_passes {α : Type} (step : PassStep α)
    (prev : List (PassStep α)) (fn : FnP α) :
    (pass_visit_function (step :: prev) fn).passes
      = (passFn1 prev fn).passes ++ [step.name] := by
  rw [visit_cons_eq]
  dsimp only
  split <;> rfl

/-- Unfolding of pass_visit_function on a nonempty chain whose name is
already recorded after the check_previous_pass stage: the content is left
untouched. -/
theorem visit_cons_content_skip {α : Type} (step : PassStep α)
    (prev : List (PassStep α)) (fn : FnP α)
    (h : step.name ∈ (passFn1 prev fn).passes) :
    (pass_visit_function (step :: prev) fn).content = (passFn1 prev fn).content := by
  rw [visit_cons_eq]
  dsimp only
  simp [h]

/-- The passes list of a function only grows under a pass run. -/
theorem pass_passes_extend {α : Type} :
    ∀ (chain : List (PassStep α)) (fn : FnP α),
      ∃ l, (pass_visit_function chain fn).passes = fn.passes ++ l := by
  intro chain
  induction chain with
  | nil => intro fn; exact ⟨[], by simp [pass_visit_function]⟩
  | cons step prev ih =>
      intro fn
      rw [visit_cons_passes]
      cases prev with
      | nil => exact ⟨[step.name], rfl⟩
      | cons p rest =>
          by_cases hm : p.name ∈ fn.passes
          · rw [passFn1_hit p rest fn hm]
            exact ⟨[step.name], rfl⟩
          · rw [passFn1_miss p rest fn hm]
            obtain ⟨l1, hl1⟩ := ih fn
            exact ⟨l1 ++ [step.name], by rw [hl1, List.append_assoc]⟩

/-- Membership in the passes list is preserved by running a pass. -/
theorem pass_passes_mono {α : Type} (chain : List (PassStep α)) (fn : FnP α)
    (x : String) (hx : x ∈ fn.passes) :
    x ∈ (pass_visit_function chain fn).passes := by
  obtain ⟨l, hl⟩ := pass_passes_extend chain fn
  rw [hl]
  exact List.mem_append_left _ hx

/-- After a run of a pass its own name is in the passes list. -/
theorem pass_name_mem {α : Type} (step : PassStep α) (prev : List (PassStep α))
    (fn : FnP α) : step.name ∈ (pass_visit_function (step :: prev) fn).passes := by
  rw [visit_cons_passes]
  simp

/-- After a run of a pass the name of its predecessor is in the passes
list: check_previous_pass either finds it recorded already or runs the
predecessor pass, which appends it. -/
theorem pass_prev_name_mem {α : Type} (step p : PassStep α)
    (rest : List (PassStep α)) (fn : FnP α) :
    p.name ∈ (pass_visit_function (step :: p :: rest) fn).passes := by
  rw [visit_cons_passes]
  refine List.mem_append_left _ ?_
  by_cases hm : p.name ∈ fn.passes
  · rw [passFn1_hit p rest fn hm]
    exact hm
  · rw [passFn1_miss p rest fn hm]
    exact pass_name_mem p rest fn

/-- Claim C8.  Running a pass twice on the same function yields the same
function content (AST suite, CFG blocks and node annotations) as running
it once: on the second run check_previous_pass finds the predecessor name
already recorded and the re-entrance guard finds the pass name already in
the passes list, so the transformation body is skipped. -/
theorem C8_pass_runs_idempotent_on_content :
    ∀ {α : Type} (chain : List (PassStep α)) (fn : FnP α),
      (pass_visit_function chain (pass_visit_function chain fn)).content
        = (pass_visit_function chain fn).content := by
  intro α chain fn
  cases chain with
  | nil => rfl
  | cons step prev =>
      have hname : step.name ∈ (pass_visit_function (step :: prev) fn).passes :=
        pass_name_mem step prev fn
      have hfn1 : passFn1 prev (pass_visit_function (step :: prev) fn)
          = pass_visit_function (step :: prev) fn := by
        cases prev with
        | nil => rfl
        | cons p rest =>
            exact passFn1_hit p rest _ (pass_prev_name_mem step p rest fn)
      have hmem : step.name ∈ (passFn1 prev (pass_visit_function (step :: prev) fn)).passes := by
        rw [hfn1]
        exact hname
      rw [visit_cons_content_skip step prev _ hmem, hfn1]

/-- Digit characters are never the dollar sign. -/
theorem digitChar_ne_dollar (d : Nat) : digitChar d ≠ '$' := by
  unfold digitChar
  split <;> decide

/-- charToDigit inverts digitChar below ten. -/
theorem charToDigit_digitChar (d : Nat) (h : d < 10) :
    charToDigit (digitChar d) = d := by
  interval_cases d <;> rfl

/-- No character of a rendered decimal number is the dollar sign. -/
theorem natDigits_ne_dollar : ∀ (n : Nat), ∀ c ∈ natDigits n, c ≠ '$' := by
  intro n
  induction n using Nat.strong_induction_on with
  | _ n ih =>
    intro c hc
    rw [natDigits] at hc
    split at hc
    · simp at hc
      rw [hc]
      exact digitChar_ne_dollar n
    · rw [List.mem_append] at hc
      rcases hc with hc | hc
      · exact ih (n / 10) (Nat.div_lt_self (by omega) (by omega)) c hc
      · simp at hc
        rw [hc]
        exact digitChar_ne_dollar (n % 10)

/-- Valuation of a digit string extended by one digit. -/
theorem digitsVal_concat (xs : List Char) (c : Char) :
    digitsVal (xs ++ [c]) = digitsVal xs * 10 + charToDigit c := by
  simp [digitsVal, List.foldl_append]

/-- The decimal rendering of a natural number evaluates back to it, so the
rendering is injective. -/
theorem digitsVal_natDigits : ∀ (n : Nat), digitsVal (natDigits n) = n := by
  intro n
  induction n using Nat.strong_induction_on with
  | _ n ih =>
    rw [natDigits]
    split
    · rename_i h
      simp [digitsVal, charToDigit_digitChar n h]
    · rename_i h
      rw [digitsVal_concat, ih (n / 10) (Nat.div_lt_self (by omega) (by omega)),
          charToDigit_digitChar (n % 10) (Nat.mod_lt _ (by omega))]
      omega

/-- Unique decomposition of a name at its dollar separator when neither
base contains a dollar sign. -/
theorem dollar_split :
    ∀ (b1 b2 t1 t2 : List Char), '$' ∉ b1 → '$' ∉ b2 →
      b1 ++ '$' :: t1 = b2 ++ '$' :: t2 → b1 = b2 ∧ t1 = t2 := by
  intro b1
  induction b1 with
  | nil =>
      intro b2 t1 t2 _ h2 he
      cases b2 with
      | nil => simpa using he
      | cons c cs =>
          simp only [List.nil_append, List.cons_append, List.cons.injEq] at he
          refine absurd (show ('$' : Char) ∈ c :: cs from ?_) h2
          rw [← he.1]
          exact List.mem_cons_self _ _
  | cons c1 cs1 ih =>
      intro b2 t1 t2 h1 h2 he
      cases b2 with
      | nil =>
          simp only [List.cons_append, List.nil_append, List.cons.injEq] at he
          refine absurd (show ('$' : Char) ∈ c1 :: cs1 from ?_) h1
          rw [he.1]
          exact List.mem_cons_self _ _
      | cons c2 cs2 =>
          simp only [List.cons_append, List.cons.injEq] at he
          have hrec := ih cs2 t1 t2 (by simp at h1; exact h1.2) (by simp at h2; exact h2.2) he.2
          exact ⟨by rw [he.1, hrec.1], hrec.2⟩

/-- Shape of every name produced in a generation run: its base with a
dollar-separated counter value at least the starting counter. -/
theorem runGenerate_mem :
    ∀ (bs : List (List Char)) (st : FnCounter) (n : List Char),
      n ∈ (runGenerate bs st).1 →
      ∃ b k, b ∈ bs ∧ st.suffix_count ≤ k ∧ n = b ++ '$' :: natDigits k := by
  intro bs
  induction bs with
  | nil => intro st n h; simp [runGenerate] at h
  | cons b rest ih =>
      intro st n h
      simp only [runGenerate, generate_suffix, List.mem_cons] at h
      rcases h with h | h
      · exact ⟨b, st.suffix_count, List.mem_cons_self b rest, Nat.le_refl _, h⟩
      · obtain ⟨b2, k, hb, hk, hn⟩ := ih { suffix_count := st.suffix_count + 1 } n h
        exact ⟨b2, k, List.mem_cons_of_mem b hb, by simp at hk; omega, hn⟩

/-- Claim C9.  Every internally generated name of one function draws its
dollar suffix from the single per-function counter, which advances by one
on each request; when no base name itself contains a dollar sign — user
names are renamed only when free of it, CFG temporaries use the base
hidden and landing-pad variables the empty base — all names generated in
the function are pairwise distinct. -/
theorem C9_generated_names_pairwise_distinct :
    ∀ (bases : List (List Char)) (st : FnCounter),
      (∀ b ∈ bases, '$' ∉ b) →
      List.Pairwise (fun x y => x ≠ y) (runGenerate bases st).1
      ∧ ((runGenerate bases st).2).suffix_count = st.suffix_count + bases.length := by
  intro bases
  induction bases with
  | nil =>
      intro st _
      exact ⟨List.Pairwise.nil, by simp [runGenerate]⟩
  | cons b rest ih =>
      intro st h
      have hrest := ih { suffix_count := st.suffix_count + 1 }
        (fun x hx => h x (List.mem_cons_of_mem b hx))
      constructor
      · simp only [runGenerate, generate_suffix]
        refine List.Pairwise.cons ?_ hrest.1
        intro n hn heq
        obtain ⟨b2, k, hb2, hk, hneq⟩ :=
          runGenerate_mem rest { suffix_count := st.suffix_count + 1 } n hn
        simp only at hk
        rw [hneq] at heq
        have hsplit := dollar_split b b2 (natDigits st.suffix_count) (natDigits k)
          (h b (List.mem_cons_self b rest)) (h b2 (List.mem_cons_of_mem b hb2)) heq
        have : st.suffix_count = k := by
          have := congrArg digitsVal hsplit.2
          rwa [digitsVal_natDigits, digitsVal_natDigits] at this
        omega
      · simp only [runGenerate, generate_suffix]
        rw [hrest.2]
        simp
        omega

/-- Witness for claim C9: the theorem applied to the bases of the three
generation sites, starting from a fresh counter, produces the pairwise
distinct names a dollar 0, hidden dollar 1 and dollar 2. -/
theorem C9_witness :
    List.Pairwise (fun x y => x ≠ y)
      (runGenerate exBases { suffix_count := 0 }).1
    ∧ ((runGenerate exBases { suffix_count := 0 }).2).suffix_count = 3 :=
  C9_generated_names_pairwise_distinct exBases { suffix_count := 0 } (by decide)

end Ragaz
